import Mathlib

/-!
Verification of the NodeDSS signaling transport
(`NodeDssSignaler.cs`): message codec for ICE composite payloads,
relay-client outcomes, poll scheduler, and the session dispatcher.

Strings are modelled as `List Char`; C# machine floats that only ever
take part in order comparisons and additions are modelled as `ℚ`.
-/

/-- Decimal digit character, as produced by C# numeric formatting:
`digitChar d` is the character with code `48 + d`. -/
def digitChar (d : ℕ) : Char := Char.ofNat (48 + d)

/-- Decimal digit list of a natural number (most significant first),
the reference recursion: one digit for `n < 10`, otherwise the digits
of `n / 10` followed by the digit of `n % 10`. -/
def digitsOf (n : ℕ) : List Char :=
  if h : n < 10 then [digitChar n]
  else digitsOf (n / 10) ++ [digitChar (n % 10)]
termination_by n
decreasing_by
  exact Nat.div_lt_self (by omega) (by norm_num)

/-- Fuel-driven (structurally recursive, hence kernel-evaluable)
accumulator version of `digitsOf`. -/
def natDigitsAux : ℕ → ℕ → List Char → List Char
  | 0, _, acc => acc
  | fuel + 1, n, acc =>
    if n < 10 then digitChar n :: acc
    else natDigitsAux fuel (n / 10) (digitChar (n % 10) :: acc)

/-- Decimal rendering of a natural number as a character list. -/
def natDigits (n : ℕ) : List Char := natDigitsAux (n + 1) n []

/-- Decimal rendering of an integer, as produced by the C# interpolation
of an `int`: a leading `-` for negative values, then the digits. -/
def intToStr (i : ℤ) : List Char :=
  if i < 0 then '-' :: natDigits i.natAbs else natDigits i.toNat

/-- Numeric value of a decimal digit character, `none` on a non-digit. -/
def digitVal (ch : Char) : Option ℕ :=
  if '0' ≤ ch ∧ ch ≤ '9' then some (ch.toNat - 48) else none

/-- Left-to-right decimal accumulation over a character list; fails on
the first non-digit character. -/
def parseDigitsAux (acc : ℕ) : List Char → Option ℕ
  | [] => some acc
  | ch :: rest =>
    match digitVal ch with
    | some v => parseDigitsAux (10 * acc + v) rest
    | none => none

/-- Parse a non-empty all-digit character list as a natural number. -/
def parseNatDigits (l : List Char) : Option ℕ :=
  if l = [] then none else parseDigitsAux 0 l

/-- Characters C# `int.Parse` accepts as leading/trailing whitespace
under `NumberStyles.Integer`: U+0009..U+000D and the space. -/
def isParseSpace (ch : Char) : Bool :=
  ch = ' ' || (9 ≤ ch.toNat && ch.toNat ≤ 13)

/-- The leading/trailing whitespace trimming `int.Parse` performs under
`NumberStyles.Integer` (AllowLeadingWhite and AllowTrailingWhite). -/
def trimParseSpaces (l : List Char) : List Char :=
  ((l.dropWhile isParseSpace).reverse.dropWhile isParseSpace).reverse

/-- The sign-and-digits core of C# `int.Parse` under
`NumberStyles.Integer` (AllowLeadingSign): an optional single leading
`+` or `-` immediately followed by one or more decimal digits. -/
def parseSigned (l : List Char) : Option ℤ :=
  match l with
  | [] => none
  | ch :: rest =>
    if ch = '-' then (parseNatDigits rest).map (fun n => -(n : ℤ))
    else if ch = '+' then (parseNatDigits rest).map (fun n => (n : ℤ))
    else (parseNatDigits (ch :: rest)).map (fun n => (n : ℤ))

/-- Model of C# `int.Parse` with its default `NumberStyles.Integer`:
optional leading/trailing whitespace, then an optional single `+` or
`-` sign, then one or more decimal digits; any other shape throws
`FormatException`, modelled as `none`. The parsed value is kept in
unbounded `ℤ`: the line index is idealized to `ℤ` throughout this
development (the encoder's `sdpMlineIndex` is a C# `Int32`), so the
`OverflowException` that `int.Parse` raises on a syntactically valid
numeral beyond the `Int32` range is outside the model. -/
def parseIntStr (l : List Char) : Option ℤ :=
  parseSigned (trimParseSpaces l)

/-- Whether `sep` occurs at the head of `s` (the prefix test the C#
`String.Split` scanner performs at each position). -/
def headMatches : List Char → List Char → Bool
  | [], _ => true
  | _ :: _, [] => false
  | a :: as, b :: bs => a == b && headMatches as bs

/-- Scanner of C# `String.Split(new string[]{sep}, ...)`: walk the input
left to right; whenever `sep` (non-empty) occurs, cut a segment and skip
over it; `acc` holds the current segment reversed. The `fuel` argument
only forces structural recursion; every step consumes at least one
input character, so any `fuel ≥ s.length` computes the same result. -/
def splitStrAux (sep : List Char) : ℕ → List Char → List Char →
    List (List Char)
  | 0, _, acc => [acc.reverse]
  | _ + 1, [], acc => [acc.reverse]
  | fuel + 1, ch :: rest, acc =>
    if sep ≠ [] ∧ headMatches sep (ch :: rest) = true then
      acc.reverse :: splitStrAux sep fuel (List.drop sep.length (ch :: rest)) []
    else
      splitStrAux sep fuel rest (ch :: acc)

/-- C# `String.Split` with a single string separator. -/
def splitStr (sep s : List Char) : List (List Char) :=
  splitStrAux sep s.length s []

/-- C# `String.Split(..., StringSplitOptions.RemoveEmptyEntries)`:
split, then discard the empty segments. -/
def splitRemoveEmpty (sep s : List Char) : List (List Char) :=
  (splitStr sep s).filter (fun p => !p.isEmpty)

/-- Wire message kind (`SignalerMessage.WireMessageType`). The named
members used by the dispatcher are `Offer`, `Answer`, `Ice`; the
`Unknown` constructor stands for every other enum value (modelled from
the spec: unknown kind values decode successfully into an unrecognized
variant, handled by the dispatcher's `default` branch). -/
inductive WireMessageType
  | Offer
  | Answer
  | Ice
  | Unknown (code : ℕ)
deriving DecidableEq

/-- A signaling message as used by `NodeDssSignaler`: the kind, the
uninterpreted `Data` payload, and the separator for `Ice` composite payloads. -/
structure SignalerMessage where
  MessageType : WireMessageType
  Data : List Char
  IceDataSeparator : List Char
deriving DecidableEq

/-- Actions the dispatcher performs on the underlying native peer
connection. -/
inductive PeerAction
  | setRemoteDescription (kind : List Char) (sdp : List Char)
  | createAnswer
  | addIceCandidate (candidate : List Char) (sdpMlineIndex : ℤ)
      (sdpMid : List Char)
deriving DecidableEq

/-- Diagnostics the signaler can emit (`Debug.Log` / `Debug.LogError`
call sites, identified by message). -/
inductive LogMsg
  | receivedSdp
  | unknownMessage
  | failureSending
  | deserializeError
  | fetchNetworkError
deriving DecidableEq

/-- Unhandled C# exceptions the dispatcher can throw while processing a
message. -/
inductive DispatchError
  | indexOutOfRange
  | formatException
deriving DecidableEq

/-- Result of one dispatcher pass over a fetch response: native peer
calls made, `Debug.Log` diagnostics, and `Debug.LogError` diagnostics. -/
structure DispatchResult where
  actions : List PeerAction
  infoLogs : List LogMsg
  errorLogs : List LogMsg
deriving DecidableEq

/-- Outcome of the HTTP GET poll as the dispatcher observes it: a
network error, a non-success HTTP status (node-dss reports an empty
slot as 404, so "no data yet" is an instance of this case), or a
success whose body deserialized to `some` message or to `null`. -/
inductive FetchResult
  | networkError
  | httpError
  | success (msg : Option SignalerMessage)

/-- Decoding of the `Ice` composite payload, exactly as the dispatcher
performs it (lines 179-180): split `Data` by the message separator
discarding empty entries, then read `parts[0]`, `int.Parse(parts[1])`,
`parts[2]` in C# left-to-right argument order; a missing part throws
`IndexOutOfRange`, an unparseable index throws `FormatException`. -/
def decodeIceFields (data sep : List Char) :
    Except DispatchError (List Char × ℤ × List Char) :=
  match splitRemoveEmpty sep data with
  | p0 :: p1 :: rest =>
    match parseIntStr p1 with
    | none => .error .formatException
    | some i =>
      match rest with
      | p2 :: _ => .ok (p0, i, p2)
      | [] => .error .indexOutOfRange
  | _ => .error .indexOutOfRange

/-- The body of `CO_GetAndProcessFromServer` after the web request
completes: branch on network error / HTTP error / deserialized message,
route the message by kind, and collect the native-peer calls and
diagnostics. An `Except.error` models an exception escaping the
coroutine (so the code after the switch never runs). -/
def processResponse (autoLogErrors : Bool) (r : FetchResult) :
    Except DispatchError DispatchResult :=
  match r with
  | .networkError =>
    .ok ⟨[], [], if autoLogErrors then [.fetchNetworkError] else []⟩
  | .httpError =>
    .ok ⟨[], [], []⟩
  | .success none =>
    .ok ⟨[], [], if autoLogErrors then [.deserializeError] else []⟩
  | .success (some msg) =>
    match msg.MessageType with
    | .Offer =>
      .ok ⟨[.setRemoteDescription ("offer".toList) msg.Data, .createAnswer],
        [.receivedSdp], []⟩
    | .Answer =>
      .ok ⟨[.setRemoteDescription ("answer".toList) msg.Data],
        [.receivedSdp], []⟩
    | .Ice =>
      match decodeIceFields msg.Data msg.IceDataSeparator with
      | .ok (c, i, m) => .ok ⟨[.addIceCandidate c i m], [.receivedSdp], []⟩
      | .error e => .error e
    | .Unknown _ =>
      .ok ⟨[], [.receivedSdp, .unknownMessage], []⟩

/-- Composite `Ice` payload built by `OnIceCandiateReadyToSend`
(line 92): the C# interpolation of candidate, line index and mid joined
by the literal separator bar. -/
def encodeIceData (candidate : List Char) (sdpMlineIndex : ℤ)
    (sdpMid : List Char) : List Char :=
  candidate ++ '|' :: (intToStr sdpMlineIndex ++ '|' :: sdpMid)

/-- The full message `OnIceCandiateReadyToSend` posts. -/
def iceMessage (candidate : List Char) (sdpMlineIndex : ℤ)
    (sdpMid : List Char) : SignalerMessage :=
  ⟨.Ice, encodeIceData candidate sdpMlineIndex sdpMid, ['|']⟩

/-- Outcome of the HTTP POST performed by `PostToServer`. -/
inductive RequestOutcome
  | success
  | networkError
  | httpError

/-- Tail of `PostToServer` after the web request completes (lines
139-142): on a network or HTTP error log a failure diagnostic when
`AutoLogErrors` is set; nothing else happens, in particular no retry. -/
def postToServer (autoLogErrors : Bool) (outcome : RequestOutcome) :
    List LogMsg :=
  match outcome with
  | .success => []
  | .networkError => if autoLogErrors then [.failureSending] else []
  | .httpError => if autoLogErrors then [.failureSending] else []

/-- Mutable signaler state driving the poll loop: the elapsed-time
accumulator `timeSincePollMs` and the completion flag `lastGetComplete`
from the source, plus `outstanding`, the number of in-flight fetch
coroutines (incremented by `StartCoroutine`, decremented when the
coroutine finishes or dies). -/
structure SignalerState where
  timeSincePollMs : ℚ
  lastGetComplete : Bool
  outstanding : ℕ

/-- Field initializers of `NodeDssSignaler`: accumulator `0`,
`lastGetComplete = true`, no coroutine running. -/
def initState : SignalerState := ⟨0, true, 0⟩

/-- One `Update` call with `Time.deltaTime = δ` seconds (lines 219-241):
while the accumulator has not strictly passed `pollTimeMs`, add
`δ * 1000` to it and return; otherwise, if a fetch is still pending do
nothing; otherwise reset the accumulator, clear the flag and start the
fetch coroutine. -/
def update (pollTimeMs δ : ℚ) (s : SignalerState) : SignalerState :=
  if s.timeSincePollMs ≤ pollTimeMs then
    { s with timeSincePollMs := s.timeSincePollMs + δ * 1000 }
  else if s.lastGetComplete = false then
    s
  else
    ⟨0, false, s.outstanding + 1⟩

/-- End of a fetch coroutine: a normal completion (`Except.ok`) reaches
line 210 and sets `lastGetComplete`; an exception (`Except.error`)
aborts the coroutine before that line, leaving the flag as it was.
Either way the coroutine itself is gone. -/
def finishFetch (out : Except DispatchError DispatchResult)
    (s : SignalerState) : SignalerState :=
  match out with
  | .ok _ => { s with lastGetComplete := true, outstanding := s.outstanding - 1 }
  | .error _ => { s with outstanding := s.outstanding - 1 }

/-- A run of `Update` calls with the given `Time.deltaTime` values. -/
def runTicks (pollTimeMs : ℚ) (deltas : List ℚ) (s : SignalerState) :
    SignalerState :=
  deltas.foldl (fun t δ => update pollTimeMs δ t) s

/-- One transition of the signaling session: either an `Update` tick, or
the completion (with any outcome) of a fetch coroutine that is actually
in flight. -/
inductive SessionStep (pollTimeMs : ℚ) : SignalerState → SignalerState → Prop
  | tick (δ : ℚ) (s : SignalerState) :
      SessionStep pollTimeMs s (update pollTimeMs δ s)
  | complete (a : Bool) (r : FetchResult) (s : SignalerState) :
      1 ≤ s.outstanding →
      SessionStep pollTimeMs s (finishFetch (processResponse a r) s)

/-- States reachable from the initial signaler state by ticks and fetch
completions. -/
inductive Reachable (pollTimeMs : ℚ) : SignalerState → Prop
  | init : Reachable pollTimeMs initState
  | step {s s' : SignalerState} : Reachable pollTimeMs s →
      SessionStep pollTimeMs s s' → Reachable pollTimeMs s'

/-- `Start` (lines 62-78): an empty server address throws
(`Except.error`); otherwise exactly a missing trailing slash is
appended. The local-peer-id defaulting on lines 74-77 touches a
different field and is not part of the address. -/
def startSignaler (addr : List Char) : Except Unit (List Char) :=
  if addr = [] then .error ()
  else if addr.getLast? = some '/' then .ok addr
  else .ok (addr ++ ['/'])

/-- URL built by `PostToServer` (line 134):
`$"{HttpServerAddress}data/{RemotePeerId}"`. -/
def buildPostUrl (addr remotePeerId : List Char) : List Char :=
  addr ++ ("data/".toList ++ remotePeerId)

/-- URL built by `CO_GetAndProcessFromServer` (line 152):
`$"{HttpServerAddress}data/{LocalPeerId}"`. -/
def buildGetUrl (addr localPeerId : List Char) : List Char :=
  addr ++ ("data/".toList ++ localPeerId)

/-- The fuel-driven digit renderer agrees with the reference recursion
whenever the fuel exceeds the number. -/
theorem natDigitsAux_eq_digitsOf :
    ∀ (fuel n : ℕ) (acc : List Char), n < fuel →
      natDigitsAux fuel n acc = digitsOf n ++ acc := by
  intro fuel
  induction fuel with
  | zero => intro n acc h; omega
  | succ f ih =>
    intro n acc h
    by_cases h10 : n < 10
    · rw [natDigitsAux, if_pos h10, digitsOf, dif_pos h10]
      rfl
    · have hdiv : n / 10 < f := by
        have : n / 10 < n := Nat.div_lt_self (by omega) (by norm_num)
        omega
      rw [natDigitsAux, if_neg h10, ih _ _ hdiv]
      conv_rhs => rw [digitsOf]
      rw [dif_neg h10, List.append_assoc]
      rfl

/-- `natDigits` computes the reference digit list. -/
theorem natDigits_eq_digitsOf (n : ℕ) : natDigits n = digitsOf n := by
  rw [natDigits, natDigitsAux_eq_digitsOf _ _ _ (Nat.lt_succ_self n),
    List.append_nil]

/-- A digit list is never empty. -/
theorem digitsOf_ne_nil (n : ℕ) : digitsOf n ≠ [] := by
  rw [digitsOf]
  by_cases h10 : n < 10
  · rw [dif_pos h10]; simp
  · rw [dif_neg h10]; simp

/-- Every character of a digit list is a decimal digit character. -/
theorem mem_digitsOf (n : ℕ) :
    ∀ ch ∈ digitsOf n, ∃ d, d < 10 ∧ ch = digitChar d := by
  induction n using Nat.strong_induction_on with
  | _ n ih =>
    intro ch hch
    rw [digitsOf] at hch
    by_cases h10 : n < 10
    · rw [dif_pos h10] at hch
      simp only [List.mem_singleton] at hch
      exact ⟨n, h10, hch⟩
    · rw [dif_neg h10] at hch
      rcases List.mem_append.mp hch with hmem | hmem
      · exact ih (n / 10) (Nat.div_lt_self (by omega) (by norm_num)) ch hmem
      · simp only [List.mem_singleton] at hmem
        exact ⟨n % 10, Nat.mod_lt _ (by norm_num), hmem⟩

/-- `digitVal` inverts `digitChar` on decimal digits. -/
theorem digitVal_digitChar (d : ℕ) (h : d < 10) :
    digitVal (digitChar d) = some d := by
  interval_cases d <;> rfl

/-- Digit characters are not the separator bar. -/
theorem digitChar_ne_pipe (d : ℕ) (h : d < 10) : digitChar d ≠ '|' := by
  interval_cases d <;> decide

/-- Digit characters are not the minus sign. -/
theorem digitChar_ne_dash (d : ℕ) (h : d < 10) : digitChar d ≠ '-' := by
  interval_cases d <;> decide

/-- The separator bar never occurs in a digit list. -/
theorem pipe_not_mem_digitsOf (n : ℕ) : '|' ∉ digitsOf n := by
  intro hmem
  obtain ⟨d, hd, hch⟩ := mem_digitsOf n '|' hmem
  exact digitChar_ne_pipe d hd hch.symm

/-- Decimal accumulation distributes over list append. -/
theorem parseDigitsAux_append :
    ∀ (xs ys : List Char) (acc : ℕ),
      parseDigitsAux acc (xs ++ ys) =
        (parseDigitsAux acc xs).bind (fun m => parseDigitsAux m ys) := by
  intro xs
  induction xs with
  | nil => intro ys acc; rfl
  | cons ch rest ih =>
    intro ys acc
    rw [List.cons_append, parseDigitsAux, parseDigitsAux]
    cases digitVal ch with
    | none => rfl
    | some v => exact ih ys (10 * acc + v)

/-- Value computed by decimal accumulation over a digit list. -/
theorem parseDigitsAux_digitsOf (n : ℕ) :
    ∀ acc : ℕ, parseDigitsAux acc (digitsOf n) =
      some (acc * 10 ^ (digitsOf n).length + n) := by
  induction n using Nat.strong_induction_on with
  | _ n ih =>
    intro acc
    rw [digitsOf]
    by_cases h10 : n < 10
    · rw [dif_pos h10, parseDigitsAux, digitVal_digitChar n h10]
      simp only [parseDigitsAux, List.length_singleton]
      congr 1
      ring
    · have hmod : n % 10 < 10 := Nat.mod_lt _ (by norm_num)
      rw [dif_neg h10, parseDigitsAux_append,
        ih (n / 10) (Nat.div_lt_self (by omega) (by norm_num)) acc,
        Option.some_bind, parseDigitsAux, digitVal_digitChar _ hmod]
      simp only [parseDigitsAux, List.length_append, List.length_singleton]
      congr 1
      have hdm : 10 * (n / 10) + n % 10 = n := by omega
      rw [pow_succ]
      ring_nf
      omega

/-- Parsing a digit list recovers the rendered number. -/
theorem parseNatDigits_digitsOf (n : ℕ) :
    parseNatDigits (digitsOf n) = some n := by
  rw [parseNatDigits, if_neg (digitsOf_ne_nil n), parseDigitsAux_digitsOf]
  simp

/-- The rendering of an integer is never empty. -/
theorem intToStr_ne_nil (i : ℤ) : intToStr i ≠ [] := by
  rw [intToStr]
  by_cases hneg : i < 0
  · rw [if_pos hneg]; simp
  · rw [if_neg hneg, natDigits_eq_digitsOf]; exact digitsOf_ne_nil _

/-- The separator bar never occurs in the rendering of an integer. -/
theorem pipe_not_mem_intToStr (i : ℤ) : '|' ∉ intToStr i := by
  rw [intToStr]
  by_cases hneg : i < 0
  · rw [if_pos hneg, natDigits_eq_digitsOf]
    intro hmem
    rcases List.mem_cons.mp hmem with hd | hd
    · exact absurd hd (by decide)
    · exact pipe_not_mem_digitsOf _ hd
  · rw [if_neg hneg, natDigits_eq_digitsOf]
    exact pipe_not_mem_digitsOf _

/-- Digit characters are not the plus sign. -/
theorem digitChar_ne_plus (d : ℕ) (h : d < 10) : digitChar d ≠ '+' := by
  interval_cases d <;> decide

/-- Digit characters are not `int.Parse` whitespace. -/
theorem parseSpace_not_digitChar (d : ℕ) (h : d < 10) :
    isParseSpace (digitChar d) = false := by
  interval_cases d <;> decide

/-- Dropping leading whitespace from a whitespace-free list is the
identity. -/
theorem dropWhile_no_space (l : List Char)
    (h : ∀ ch ∈ l, isParseSpace ch = false) :
    l.dropWhile isParseSpace = l := by
  cases l with
  | nil => rfl
  | cons a as =>
    have ha : isParseSpace a = false := h a (List.mem_cons_self a as)
    simp [List.dropWhile_cons, ha]

/-- `int.Parse` trimming is the identity on whitespace-free input. -/
theorem trimParseSpaces_eq_self (l : List Char)
    (h : ∀ ch ∈ l, isParseSpace ch = false) :
    trimParseSpaces l = l := by
  rw [trimParseSpaces, dropWhile_no_space l h,
    dropWhile_no_space l.reverse
      (fun ch hm => h ch (List.mem_reverse.mp hm)),
    List.reverse_reverse]

/-- The rendering of an integer contains no `int.Parse` whitespace. -/
theorem no_space_mem_intToStr (i : ℤ) :
    ∀ ch ∈ intToStr i, isParseSpace ch = false := by
  intro ch hm
  rw [intToStr] at hm
  by_cases hneg : i < 0
  · rw [if_pos hneg, natDigits_eq_digitsOf] at hm
    rcases List.mem_cons.mp hm with h1 | h1
    · rw [h1]
      decide
    · obtain ⟨d, hd, hEq⟩ := mem_digitsOf _ ch h1
      rw [hEq]
      exact parseSpace_not_digitChar d hd
  · rw [if_neg hneg, natDigits_eq_digitsOf] at hm
    obtain ⟨d, hd, hEq⟩ := mem_digitsOf _ ch hm
    rw [hEq]
    exact parseSpace_not_digitChar d hd

/-- `int.Parse` inverts the C# rendering of an integer. -/
theorem parseIntStr_intToStr (i : ℤ) : parseIntStr (intToStr i) = some i := by
  have htrim : trimParseSpaces (intToStr i) = intToStr i :=
    trimParseSpaces_eq_self _ (no_space_mem_intToStr i)
  rw [parseIntStr, htrim, intToStr]
  by_cases hneg : i < 0
  · rw [if_pos hneg, natDigits_eq_digitsOf, parseSigned, if_pos rfl,
      parseNatDigits_digitsOf]
    have hval : -(i.natAbs : ℤ) = i := by omega
    show some (-(i.natAbs : ℤ)) = some i
    rw [hval]
  · rw [if_neg hneg, natDigits_eq_digitsOf]
    rcases hD : digitsOf i.toNat with _ | ⟨ch, t⟩
    · exact absurd hD (digitsOf_ne_nil _)
    · have hmem : ch ∈ digitsOf i.toNat := by rw [hD]; simp
      obtain ⟨d, hd, hEq⟩ := mem_digitsOf _ ch hmem
      have hch : ch ≠ '-' := by
        rw [hEq]
        exact digitChar_ne_dash d hd
      have hchp : ch ≠ '+' := by
        rw [hEq]
        exact digitChar_ne_plus d hd
      rw [parseSigned, if_neg hch, if_neg hchp, ← hD, parseNatDigits_digitsOf]
      have hval : ((i.toNat : ℤ)) = i := by omega
      show some ((i.toNat : ℤ)) = some i
      rw [hval]

/-- `splitStrAux` ignores the exact amount of fuel as long as it covers
the input length. -/
theorem splitStrAux_fuel (sep : List Char) :
    ∀ (f f' : ℕ) (s acc : List Char), s.length ≤ f → s.length ≤ f' →
      splitStrAux sep f s acc = splitStrAux sep f' s acc := by
  intro f
  induction f with
  | zero =>
    intro f' s acc hf hf'
    have hs : s = [] := List.length_eq_zero.mp (Nat.le_zero.mp hf)
    subst hs
    cases f' <;> rfl
  | succ f ih =>
    intro f' s acc hf hf'
    cases s with
    | nil => cases f' <;> rfl
    | cons ch rest =>
      cases f' with
      | zero => simp at hf'
      | succ f'' =>
        by_cases hcond : sep ≠ [] ∧ headMatches sep (ch :: rest) = true
        · rw [splitStrAux, if_pos hcond, splitStrAux, if_pos hcond]
          have hsep : 0 < sep.length := List.length_pos.mpr hcond.1
          have hlen : (List.drop sep.length (ch :: rest)).length ≤ f := by
            simp only [List.length_drop, List.length_cons]
            simp only [List.length_cons] at hf
            omega
          have hlen' : (List.drop sep.length (ch :: rest)).length ≤ f'' := by
            simp only [List.length_drop, List.length_cons]
            simp only [List.length_cons] at hf'
            omega
          rw [ih f'' _ _ hlen hlen']
        · rw [splitStrAux, if_neg hcond, splitStrAux, if_neg hcond]
          simp only [List.length_cons] at hf hf'
          exact ih f'' rest (ch :: acc) (by omega) (by omega)

/-- Splitting a bar-free string produces a single segment. -/
theorem splitStrAux_no_pipe :
    ∀ (m : List Char) (f : ℕ) (acc : List Char), m.length ≤ f →
      '|' ∉ m → splitStrAux ['|'] f m acc = [acc.reverse ++ m] := by
  intro m
  induction m with
  | nil =>
    intro f acc hf hm
    cases f <;> simp [splitStrAux]
  | cons ch rest ih =>
    intro f acc hf hm
    cases f with
    | zero => simp at hf
    | succ f' =>
      have hch : ch ≠ '|' := fun hEq => hm (by rw [hEq]; simp)
      have hcond : ¬(['|'] ≠ [] ∧ headMatches ['|'] (ch :: rest) = true) := by
        simp [headMatches]
        intro hEq
        exact absurd hEq.symm hch
      rw [splitStrAux, if_neg hcond]
      simp only [List.length_cons] at hf
      rw [ih f' (ch :: acc) (by omega) (fun hmem => hm (List.mem_cons_of_mem _ hmem))]
      simp

/-- Splitting cuts at the first bar after a bar-free head. -/
theorem splitStrAux_cut :
    ∀ (c : List Char) (f : ℕ) (r acc : List Char),
      (c ++ '|' :: r).length ≤ f → '|' ∉ c →
      splitStrAux ['|'] f (c ++ '|' :: r) acc =
        (acc.reverse ++ c) :: splitStr ['|'] r := by
  intro c
  induction c with
  | nil =>
    intro f r acc hf hc
    cases f with
    | zero => simp at hf
    | succ f' =>
      have hcond : (['|'] ≠ [] ∧ headMatches ['|'] ('|' :: r) = true) := by
        simp [headMatches]
      rw [List.nil_append, splitStrAux, if_pos hcond]
      simp only [List.length_singleton, List.drop_succ_cons, List.drop_zero]
      simp only [List.length_cons, List.nil_append] at hf
      rw [splitStrAux_fuel ['|'] f' r.length r [] (by omega) (le_refl _)]
      simp [splitStr]
  | cons ch c' ih =>
    intro f r acc hf hc
    cases f with
    | zero => simp at hf
    | succ f' =>
      have hch : ch ≠ '|' := fun hEq => hc (by rw [hEq]; simp)
      have hcond :
          ¬(['|'] ≠ [] ∧ headMatches ['|'] (ch :: (c' ++ '|' :: r)) = true) := by
        simp [headMatches]
        intro hEq
        exact absurd hEq.symm hch
      rw [List.cons_append, splitStrAux, if_neg hcond]
      have hlen : (c' ++ '|' :: r).length ≤ f' := by
        simp only [List.cons_append, List.length_cons] at hf
        omega
      rw [ih f' r (ch :: acc) hlen
        (fun hmem => hc (List.mem_cons_of_mem _ hmem))]
      simp only [List.reverse_cons, List.append_assoc, List.singleton_append]

/-- Splitting the encoded composite payload on the bar separator
recovers the three raw segments. -/
theorem splitStr_encodeIceData (c mid : List Char) (i : ℤ)
    (hc : '|' ∉ c) (hm : '|' ∉ mid) :
    splitStr ['|'] (encodeIceData c i mid) = [c, intToStr i, mid] := by
  rw [splitStr, encodeIceData]
  rw [splitStrAux_cut c _ _ [] (le_refl _) hc]
  rw [splitStr, splitStrAux_cut (intToStr i) _ _ [] (le_refl _)
    (pipe_not_mem_intToStr i)]
  rw [splitStr, splitStrAux_no_pipe mid _ [] (le_refl _) hm]
  simp

/-- With all three segments non-empty, discarding empty entries keeps
exactly the three segments. -/
theorem splitRemoveEmpty_encodeIceData (c mid : List Char) (i : ℤ)
    (hc0 : c ≠ []) (hc : '|' ∉ c) (hm0 : mid ≠ []) (hm : '|' ∉ mid) :
    splitRemoveEmpty ['|'] (encodeIceData c i mid) = [c, intToStr i, mid] := by
  rw [splitRemoveEmpty, splitStr_encodeIceData c mid i hc hm]
  have h1 : c.isEmpty = false := by
    cases c with
    | nil => exact absurd rfl hc0
    | cons x xs => rfl
  have h2 : (intToStr i).isEmpty = false := by
    cases hI : intToStr i with
    | nil => exact absurd hI (intToStr_ne_nil i)
    | cons x xs => rfl
  have h3 : mid.isEmpty = false := by
    cases mid with
    | nil => exact absurd rfl hm0
    | cons x xs => rfl
  simp [List.filter, h1, h2, h3]

/-- Claim C5 (amended): for every non-empty candidate string not
containing the separator, every integer line index, and every non-empty
mid not containing the separator, decoding (as the dispatcher does) the
composite payload encoded by `OnIceCandiateReadyToSend` with the same
separator returns exactly the original triple. (The claim as stated is
refuted by the empty candidate string, see the counterexample.) -/
theorem iceFields_roundtrip (c mid : List Char) (i : ℤ)
    (hc0 : c ≠ []) (hc : '|' ∉ c) (hm0 : mid ≠ []) (hm : '|' ∉ mid) :
    decodeIceFields (encodeIceData c i mid) ['|'] = Except.ok (c, i, mid) := by
  rw [decodeIceFields, splitRemoveEmpty_encodeIceData c mid i hc0 hc hm0 hm]
  simp only [parseIntStr_intToStr]

/-- Claim C5 witness: the spec's scenario triple with separator bar
encodes to the expected composite string and decodes back to the
original triple. -/
theorem iceFields_roundtrip_witness :
    encodeIceData ("candidate:1 1 UDP...".toList) 0 ("audio".toList) =
      "candidate:1 1 UDP...|0|audio".toList
    ∧ decodeIceFields ("candidate:1 1 UDP...|0|audio".toList) ['|'] =
      Except.ok (("candidate:1 1 UDP...".toList), 0, ("audio".toList)) := by
  constructor
  · rfl
  · have henc : encodeIceData ("candidate:1 1 UDP...".toList) 0
        ("audio".toList) = "candidate:1 1 UDP...|0|audio".toList := rfl
    rw [← henc]
    exact iceFields_roundtrip _ _ 0 (by decide) (by decide) (by decide)
      (by decide)

/-- Claim C5 counterexample: the empty candidate string contains no
separator, yet its encoded composite does not decode back to the
original triple — the empty leading segment is discarded, the decoder
then parses `"audio"` as the line index and throws `FormatException`. -/
theorem iceFields_empty_candidate_counterexample :
    decodeIceFields (encodeIceData [] 0 ("audio".toList)) ['|'] ≠
      Except.ok ([], 0, "audio".toList)
    ∧ decodeIceFields (encodeIceData [] 0 ("audio".toList)) ['|'] =
      Except.error DispatchError.formatException := by
  constructor
  · intro hEq
    have : Except.error DispatchError.formatException =
        (Except.ok ([], 0, "audio".toList) :
          Except DispatchError (List Char × ℤ × List Char)) := by
      rw [← hEq]
      rfl
    exact Except.noConfusion this
  · rfl

/-- A malformed composite payload (fewer than three non-empty segments,
or a second segment that is not a parseable integer) makes the decode
step throw. -/
theorem decodeIceFields_malformed (data sep : List Char)
    (hbad : (splitRemoveEmpty sep data).length < 3
      ∨ parseIntStr ((splitRemoveEmpty sep data).getD 1 []) = none) :
    ∃ e, decodeIceFields data sep = Except.error e := by
  rcases hparts : splitRemoveEmpty sep data with _ | ⟨p0, ps⟩
  · exact ⟨.indexOutOfRange, by rw [decodeIceFields, hparts]⟩
  · rcases ps with _ | ⟨p1, rest⟩
    · exact ⟨.indexOutOfRange, by rw [decodeIceFields, hparts]⟩
    · cases hp : parseIntStr p1 with
      | none =>
        refine ⟨.formatException, ?_⟩
        rw [decodeIceFields, hparts]
        simp [hp]
      | some i =>
        rcases rest with _ | ⟨p2, rest'⟩
        · refine ⟨.indexOutOfRange, ?_⟩
          rw [decodeIceFields, hparts]
          simp [hp]
        · exfalso
          rw [hparts] at hbad
          rcases hbad with hlen | hpar
          · simp at hlen
            omega
          · rw [List.getD_cons_succ, List.getD_cons_zero, hp] at hpar
            exact Option.noConfusion hpar

/-- An exception in the `Ice` decode escapes the whole dispatcher pass. -/
theorem processResponse_ice_error (a : Bool) (data sep : List Char)
    (e : DispatchError) (h : decodeIceFields data sep = Except.error e) :
    processResponse a (.success (some ⟨.Ice, data, sep⟩)) =
      Except.error e := by
  simp only [processResponse]
  rw [h]

/-- Claim C1 (amended): a received `Ice` message whose payload splits
into fewer than three non-empty segments, or whose second segment is
not a parseable integer — per `int.Parse` under `NumberStyles.Integer`:
after optional surrounding whitespace and an optional leading `+` or
`-` sign, not a non-empty digit string (`Int32` overflow, which also
throws, is outside this development's idealized `ℤ` index domain) —
makes the dispatcher throw an unhandled exception; the coroutine dies
before line 210, so `lastGetComplete` is left unchanged (`false` while
a fetch is in flight) and no subsequent poll is ever issued. No
malformed-message diagnostic exists in the code. -/
theorem malformedIceThrows (a : Bool) (msg : SignalerMessage)
    (hIce : msg.MessageType = WireMessageType.Ice)
    (hbad : (splitRemoveEmpty msg.IceDataSeparator msg.Data).length < 3
      ∨ parseIntStr
          ((splitRemoveEmpty msg.IceDataSeparator msg.Data).getD 1 []) =
          none) :
    (∃ e, processResponse a (.success (some msg)) = Except.error e)
    ∧ ∀ s : SignalerState,
        (finishFetch (processResponse a (.success (some msg)))
          s).lastGetComplete = s.lastGetComplete := by
  obtain ⟨mt, data, sep⟩ := msg
  cases hIce
  obtain ⟨e, he⟩ := decodeIceFields_malformed data sep hbad
  have hproc := processResponse_ice_error a data sep e he
  refine ⟨⟨e, hproc⟩, ?_⟩
  intro s
  rw [hproc]
  rfl

/-- Claim C1 witness: a two-segment `Ice` payload satisfies the
malformed hypothesis and the dispatcher pass ends in an exception. -/
theorem malformedIceThrows_witness :
    ∃ e, processResponse true
      (.success (some ⟨WireMessageType.Ice, "ab|cd".toList, "|".toList⟩)) =
      Except.error e :=
  (malformedIceThrows true ⟨WireMessageType.Ice, "ab|cd".toList, "|".toList⟩
    rfl (Or.inl (by decide))).1

/-- Claim C1 counterexample: on the concrete malformed `Ice` message
with payload `"x"` and separator `"|"` (one segment), even with error
logging enabled, the dispatcher does not produce any non-crashing
result (it throws `IndexOutOfRange`), and the completion flag of an
in-flight poll state stays `false`, so no subsequent poll is processed
— refuting "rejects ... with a diagnostic and does not crash, and
continues processing subsequent polls". -/
theorem malformedIceCrash_counterexample :
    (processResponse true
      (.success (some ⟨WireMessageType.Ice, "x".toList, "|".toList⟩))).isOk
      = false
    ∧ processResponse true
        (.success (some ⟨WireMessageType.Ice, "x".toList, "|".toList⟩)) =
        Except.error DispatchError.indexOutOfRange
    ∧ (finishFetch
        (processResponse true
          (.success (some ⟨WireMessageType.Ice, "x".toList, "|".toList⟩)))
        ⟨0, false, 1⟩).lastGetComplete = false :=
  ⟨rfl, rfl, rfl⟩

/-- Claim C6: an `Offer` applies the payload as the remote description
and immediately, unconditionally creates a local answer; an `Answer`
applies the payload as the remote description and does nothing else. -/
theorem offerAutoAnswers_answerApplies (a : Bool) (d sep : List Char) :
    processResponse a (.success (some ⟨WireMessageType.Offer, d, sep⟩)) =
      Except.ok ⟨[.setRemoteDescription ("offer".toList) d, .createAnswer],
        [.receivedSdp], []⟩
    ∧ processResponse a (.success (some ⟨WireMessageType.Answer, d, sep⟩)) =
      Except.ok ⟨[.setRemoteDescription ("answer".toList) d],
        [.receivedSdp], []⟩ :=
  ⟨rfl, rfl⟩

/-- Claim C7: a successfully decoded message of any kind other than
Offer/Answer/Ice is logged and dropped — no peer action, no error
diagnostic — and the pass completes normally so the completion flag is
set and polling continues. -/
theorem unknownKindDroppedNonFatal (a : Bool) (n : ℕ) (d sep : List Char)
    (s : SignalerState) :
    processResponse a (.success (some ⟨WireMessageType.Unknown n, d, sep⟩)) =
      Except.ok ⟨[], [.receivedSdp, .unknownMessage], []⟩
    ∧ (finishFetch
        (processResponse a
          (.success (some ⟨WireMessageType.Unknown n, d, sep⟩)))
        s).lastGetComplete = true :=
  ⟨rfl, rfl⟩

/-- Claim C8: a fetch that completes with the relay's not-found
condition (a non-success HTTP status, which is how node-dss reports an
empty slot) is a first-class non-error outcome: no peer action, no
diagnostic at any verbosity (the error-log line is commented out in the
source), and the in-flight flag is cleared. -/
theorem notFoundFirstClass (a : Bool) (s : SignalerState) :
    processResponse a FetchResult.httpError = Except.ok ⟨[], [], []⟩
    ∧ finishFetch (processResponse a FetchResult.httpError) s =
      { s with lastGetComplete := true, outstanding := s.outstanding - 1 } :=
  ⟨rfl, rfl⟩

/-- Claim C9 (amended): a publish completing with a network or HTTP
error logs a failure diagnostic exactly when error logging is enabled
and performs no further action (no retry); a fetch completing with a
network error logs a diagnostic exactly when error logging is enabled,
while a fetch completing with a non-success HTTP status logs nothing at
all (deliberately silenced because node-dss signals "no data yet" as
404); in every case the outcome is non-fatal: the completion flag is
set, so the next tick can retry. -/
theorem transportErrorsNonFatal (a : Bool) (s : SignalerState) :
    postToServer a RequestOutcome.networkError =
      (if a then [LogMsg.failureSending] else [])
    ∧ postToServer a RequestOutcome.httpError =
      (if a then [LogMsg.failureSending] else [])
    ∧ processResponse a FetchResult.networkError =
      Except.ok ⟨[], [], if a then [.fetchNetworkError] else []⟩
    ∧ processResponse a FetchResult.httpError = Except.ok ⟨[], [], []⟩
    ∧ (finishFetch (processResponse a FetchResult.networkError)
        s).lastGetComplete = true
    ∧ (finishFetch (processResponse a FetchResult.httpError)
        s).lastGetComplete = true :=
  ⟨rfl, rfl, rfl, rfl, rfl, rfl⟩

/-- Claim C9 counterexample: with error logging enabled, a fetch that
completes with a transport error of the non-success-HTTP-status kind
emits no diagnostic whatsoever (both log lists are empty), refuting
"the error is reported (a diagnostic is emitted when error logging is
enabled)" for fetches. -/
theorem fetchHttpErrorSilent_counterexample :
    processResponse true FetchResult.httpError =
      Except.ok ⟨[], [], []⟩ :=
  rfl

/-- One step of the session preserves the in-flight invariant. -/
theorem sessionStep_invariant (P : ℚ) (t t' : SignalerState)
    (hstep : SessionStep P t t')
    (ih : (t.lastGetComplete = true → t.outstanding = 0) ∧ t.outstanding ≤ 1) :
    (t'.lastGetComplete = true → t'.outstanding = 0) ∧ t'.outstanding ≤ 1 := by
  cases hstep with
  | tick δ =>
    rw [update]
    by_cases h1 : t.timeSincePollMs ≤ P
    · rw [if_pos h1]
      exact ih
    · rw [if_neg h1]
      by_cases h2 : t.lastGetComplete = false
      · rw [if_pos h2]
        exact ih
      · rw [if_neg h2]
        have hflag : t.lastGetComplete = true := by
          cases hb : t.lastGetComplete
          · exact absurd hb h2
          · rfl
        have hzero : t.outstanding = 0 := ih.1 hflag
        constructor
        · intro hcontra
          exact Bool.noConfusion hcontra
        · show t.outstanding + 1 ≤ 1
          omega
  | complete a r hout =>
    cases hres : processResponse a r with
    | ok res =>
      rw [finishFetch]
      refine ⟨fun _ => ?_, ?_⟩
      · show t.outstanding - 1 = 0
        have := ih.2
        omega
      · show t.outstanding - 1 ≤ 1
        have := ih.2
        omega
    | error e =>
      rw [finishFetch]
      refine ⟨fun hflag => ?_, ?_⟩
      · show t.outstanding - 1 = 0
        have hzero := ih.1 hflag
        omega
      · show t.outstanding - 1 ≤ 1
        have := ih.2
        omega

/-- Session invariant: while the completion flag is set no fetch is in
flight, and there is never more than one in-flight fetch. -/
theorem reachable_invariant (P : ℚ) (s : SignalerState)
    (h : Reachable P s) :
    (s.lastGetComplete = true → s.outstanding = 0) ∧ s.outstanding ≤ 1 := by
  induction h with
  | init => exact ⟨fun _ => rfl, Nat.zero_le 1⟩
  | step hr hstep ih => exact sessionStep_invariant P _ _ hstep ih

/-- Claim C2: across every sequence of ticks and fetch completions, the
number of concurrently outstanding fetches never exceeds one; the guard
`lastGetComplete` is cleared exactly when the fetch is issued and set
again only by the completion transition. -/
theorem atMostOneFetchInFlight (P : ℚ) (s : SignalerState)
    (h : Reachable P s) : s.outstanding ≤ 1 :=
  (reachable_invariant P s h).2

/-- Claim C2 witness: after an accumulating tick and a fetch-issuing
tick from the initial state, the number of in-flight fetches is still
at most one. -/
theorem atMostOneFetchInFlight_witness :
    (update 500 0 (update 500 (3 / 5) initState)).outstanding ≤ 1 :=
  atMostOneFetchInFlight 500 _
    (Reachable.step
      (Reachable.step Reachable.init (SessionStep.tick (3 / 5) initState))
      (SessionStep.tick 0 _))

/-- Claim C3 (amended): on a tick where the accumulator has not yet
strictly passed the interval, `Update` only adds the elapsed
milliseconds to the accumulator (no reset, no fetch) — including the
tick on which the accumulator exactly reaches the interval; on a tick
where the accumulator strictly exceeds the interval, nothing at all
changes if a fetch is in flight, and otherwise the accumulator resets
to zero and a fetch is issued; a fetch is issued on a tick exactly when
the accumulator strictly exceeded the interval at tick entry and no
fetch was in flight. -/
theorem tickCharacterization (P δ : ℚ) (s : SignalerState) :
    (s.timeSincePollMs ≤ P →
      update P δ s =
        { s with timeSincePollMs := s.timeSincePollMs + δ * 1000 })
    ∧ (P < s.timeSincePollMs → s.lastGetComplete = false →
        update P δ s = s)
    ∧ (P < s.timeSincePollMs → s.lastGetComplete = true →
        update P δ s = ⟨0, false, s.outstanding + 1⟩)
    ∧ ((update P δ s).outstanding ≠ s.outstanding ↔
        (P < s.timeSincePollMs ∧ s.lastGetComplete = true)) := by
  refine ⟨?_, ?_, ?_, ?_⟩
  · intro h1
    rw [update, if_pos h1]
  · intro h1 h2
    rw [update, if_neg (not_le.mpr h1), if_pos h2]
  · intro h1 h2
    rw [update, if_neg (not_le.mpr h1), if_neg (by rw [h2]; exact Bool.noConfusion)]
  · rw [update]
    by_cases h1 : s.timeSincePollMs ≤ P
    · rw [if_pos h1]
      constructor
      · intro hcontra
        exact absurd rfl hcontra
      · intro ⟨hc, _⟩
        exact absurd h1 (not_le.mpr hc)
    · rw [if_neg h1]
      by_cases h2 : s.lastGetComplete = false
      · rw [if_pos h2]
        constructor
        · intro hcontra
          exact absurd rfl hcontra
        · intro ⟨_, hc⟩
          rw [hc] at h2
          exact Bool.noConfusion h2
      · rw [if_neg h2]
        constructor
        · intro _
          refine ⟨not_le.mp h1, ?_⟩
          cases hb : s.lastGetComplete
          · exact absurd hb h2
          · rfl
        · intro _
          simp only [SignalerState.outstanding]
          omega

/-- Claim C3 witness: with the accumulator strictly past the interval
and no fetch in flight, the tick resets the accumulator and issues the
fetch. -/
theorem tickCharacterization_witness :
    update 500 1 ⟨501, true, 0⟩ = ⟨0, false, 1⟩ :=
  (tickCharacterization 500 1 ⟨501, true, 0⟩).2.2.1 (by norm_num) rfl

/-- Claim C3 counterexample: on the concrete tick where the accumulator
(501 ms) has reached (and even exceeded) the 500 ms interval while a
fetch is in flight, the state is completely unchanged: the accumulator
is neither reset to zero (as the claim demands unconditionally on the
trigger tick) nor incremented by the supplied elapsed time (as the
claim's "on every tick, accumulates" demands), and the same holds on
the tick that first makes the accumulator reach the interval, where the
code only accumulates and issues nothing. -/
theorem tickReset_counterexample :
    update 500 1 ⟨501, false, 1⟩ = ⟨501, false, 1⟩
    ∧ (500 : ℚ) < 501
    ∧ (update 500 (3 / 5) initState).timeSincePollMs = 600
    ∧ (update 500 (3 / 5) initState).outstanding = 0
    ∧ (500 : ℚ) ≤ 600 := by
  refine ⟨?_, by norm_num, ?_, ?_, by norm_num⟩
  · rw [update, if_neg (by norm_num)]
    rfl
  · rw [update, if_pos (by norm_num [initState])]
    norm_num [initState]
  · rw [update, if_pos (by norm_num [initState])]
    rfl

/-- While every running accumulation total stays strictly below the interval,
a run of ticks only accumulates: no reset, no flag change, no fetch. -/
theorem runTicks_accumulates (P : ℚ) :
    ∀ (deltas : List ℚ) (s : SignalerState),
      (∀ k : ℕ,
        s.timeSincePollMs +
          ((deltas.take k).map (fun δ => δ * 1000)).sum < P) →
      runTicks P deltas s =
        { s with timeSincePollMs :=
            s.timeSincePollMs + (deltas.map (fun δ => δ * 1000)).sum } := by
  intro deltas
  induction deltas with
  | nil =>
    intro s hlt
    show s = _
    rw [List.map_nil, List.sum_nil, add_zero]
  | cons δ ds ih =>
    intro s hlt
    have h0 : s.timeSincePollMs < P := by
      have := hlt 0
      rw [List.take_zero, List.map_nil, List.sum_nil, add_zero] at this
      exact this
    show runTicks P ds (update P δ s) = _
    rw [update, if_pos (le_of_lt h0)]
    rw [ih _ (fun k => ?_)]
    · show _ =
        { s with timeSincePollMs :=
            s.timeSincePollMs + ((δ :: ds).map (fun x => x * 1000)).sum }
      rw [List.map_cons, List.sum_cons, ← add_assoc]
    · have := hlt (k + 1)
      rw [List.take_succ_cons, List.map_cons, List.sum_cons,
        ← add_assoc] at this
      exact this

/-- Claim C4: for every sequence of ticks whose accumulated elapsed
time (in milliseconds) stays strictly below the configured poll
interval, no fetch is ever triggered — after every prefix of the run
the number of issued fetches is still zero. -/
theorem idleTicksNoFetch (P : ℚ) (deltas : List ℚ)
    (h : ∀ k : ℕ, (((deltas.take k).map (fun δ => δ * 1000)).sum) < P) :
    ∀ k : ℕ, (runTicks P (deltas.take k) initState).outstanding = 0 := by
  intro k
  rw [runTicks_accumulates P (deltas.take k) initState (fun j => ?_)]
  · rfl
  · show initState.timeSincePollMs + _ < P
    rw [List.take_take]
    have := h (min j k)
    calc initState.timeSincePollMs +
        (((deltas.take (min j k)).map (fun δ => δ * 1000)).sum) =
        (((deltas.take (min j k)).map (fun δ => δ * 1000)).sum) := by
          rw [show initState.timeSincePollMs = 0 from rfl, zero_add]
      _ < P := this

/-- Claim C4 witness: two ticks of 0.1 s and 0.2 s against a 500 ms
interval never fetch. -/
theorem idleTicksNoFetch_witness :
    (runTicks 500 ([(1 : ℚ) / 10, 2 / 10].take 2) initState).outstanding
      = 0 := by
  refine idleTicksNoFetch 500 [(1 : ℚ) / 10, 2 / 10] ?_ 2
  intro k
  match k with
  | 0 => norm_num
  | 1 => norm_num
  | (j + 2) =>
    rw [List.take_succ_cons, List.take_succ_cons, List.take_nil]
    norm_num

/-- Claim C10: when `Start` succeeds, the server address ends with a
slash; the only mutation `Start` performs on the address is appending
one slash exactly when it was missing; every publish (POST) and fetch
(GET) URL formed afterwards is the normalized address immediately
followed by `data/` and the peer id, so the junction between base and
path is the single slash the base ends with — in particular, when the
configured address lacked the trailing slash, the URL is exactly the
configured address, one slash, then `data/<peer-id>`. -/
theorem startNormalizesAddress (addr b : List Char)
    (h : startSignaler addr = Except.ok b) :
    b.getLast? = some '/'
    ∧ (b = addr ∨ b = addr ++ ['/'])
    ∧ (addr.getLast? = some '/' → b = addr)
    ∧ (addr.getLast? ≠ some '/' → b = addr ++ ['/'])
    ∧ ∀ peerId : List Char,
        buildPostUrl b peerId = b.dropLast ++ '/' :: ("data/".toList ++ peerId)
        ∧ buildGetUrl b peerId = b.dropLast ++ '/' :: ("data/".toList ++ peerId)
        ∧ (addr.getLast? ≠ some '/' →
            buildPostUrl b peerId = addr ++ '/' :: ("data/".toList ++ peerId)
            ∧ buildGetUrl b peerId = addr ++ '/' :: ("data/".toList ++ peerId)) := by
  rw [startSignaler] at h
  by_cases hnil : addr = []
  · rw [if_pos hnil] at h
    exact Except.noConfusion h
  · rw [if_neg hnil] at h
    by_cases hslash : addr.getLast? = some '/'
    · rw [if_pos hslash] at h
      have hb : b = addr := (Except.ok.injEq _ _).mp h.symm
      subst hb
      have hsplit : b.dropLast ++ ['/'] = b := by
        have hlast : b.getLast hnil = '/' := by
          have := List.getLast?_eq_getLast b hnil
          rw [this] at hslash
          exact Option.some_inj.mp hslash
        rw [← hlast]
        exact List.dropLast_append_getLast hnil
      refine ⟨hslash, Or.inl rfl, fun _ => rfl,
        fun hcontra => absurd hslash hcontra, fun peerId => ?_⟩
      refine ⟨?_, ?_, fun hcontra => absurd hslash hcontra⟩
      · rw [buildPostUrl]
        conv_lhs => rw [← hsplit]
        rw [List.append_assoc, List.singleton_append]
      · rw [buildGetUrl]
        conv_lhs => rw [← hsplit]
        rw [List.append_assoc, List.singleton_append]
    · rw [if_neg hslash] at h
      have hb : b = addr ++ ['/'] := (Except.ok.injEq _ _).mp h.symm
      subst hb
      have hlast : (addr ++ ['/']).getLast? = some '/' := by
        rw [List.getLast?_concat]
      have hdrop : (addr ++ ['/']).dropLast = addr := List.dropLast_concat
      refine ⟨hlast, Or.inr rfl, fun hcontra => absurd hcontra hslash,
        fun _ => rfl, fun peerId => ?_⟩
      have hpost : buildPostUrl (addr ++ ['/']) peerId =
          addr ++ '/' :: ("data/".toList ++ peerId) := by
        rw [buildPostUrl, List.append_assoc, List.singleton_append]
      have hget : buildGetUrl (addr ++ ['/']) peerId =
          addr ++ '/' :: ("data/".toList ++ peerId) := by
        rw [buildGetUrl, List.append_assoc, List.singleton_append]
      refine ⟨?_, ?_, fun _ => ⟨hpost, hget⟩⟩
      · rw [hpost, hdrop]
      · rw [hget, hdrop]

/-- Claim C10 witness: the default address without its trailing slash
is normalized back to it, and the publish URL is the configured base,
one slash, then the data path and peer id. -/
theorem startNormalizesAddress_witness :
    buildPostUrl ("http://127.0.0.1:3000/".toList) ("peerA".toList) =
      "http://127.0.0.1:3000".toList ++
        '/' :: ("data/".toList ++ "peerA".toList) := by
  have h : startSignaler ("http://127.0.0.1:3000".toList) =
      Except.ok ("http://127.0.0.1:3000/".toList) := rfl
  exact (((startNormalizesAddress _ _ h).2.2.2.2 _).2.2 (by decide)).1
